import Mathlib

/-!
Verification development for the RandTerrainPy terrain library
(randterrainpy/terrain.py).  The Python classes `Terrain` and
`VoronoiTerrain` are shallowly embedded below: heights and Python floats are
idealised as exact rationals, Python lists become Lean lists, in-place
mutation becomes explicit state passing, and code that can raise becomes
`Except Err`.  Every definition is a direct transcription of the
corresponding Python method; divergences of the code from the published
specification are then proved or refuted as theorems.
-/

namespace RandTerrain

/-- Exception taxonomy used by terrain.py.  The repository's custom exception
classes (`HeightOutOfBoundsError`, `InvalidDimensionsError`,
`InvalidFileFormatError`, `OutOfRegionError`, `InvalidCoefficientCountError`)
are plain marker classes; Python built-ins that the code can also raise
(`IOError`, `ZeroDivisionError`, `IndexError`, `ValueError`) are modelled by
further constructors. -/
inductive Err where
  | heightOutOfBounds
  | invalidDimensions
  | invalidFileFormat
  | outOfRegion
  | invalidCoefficientCount
  | ioError
  | zeroDivision
  | indexError
  | valueError
  deriving DecidableEq, Repr

/-- Python 2 `round` to an integer: round half away from zero. -/
def roundHalfAway (q : ℚ) : ℤ :=
  if 0 ≤ q then ⌊q + 1/2⌋ else -⌊-q + 1/2⌋

/-- Python 2 `round(q, 3)`. -/
def pyRound3 (q : ℚ) : ℚ := (roundHalfAway (q * 1000) : ℚ) / 1000

/-- Python 2 `round(q, 4)`. -/
def pyRound4 (q : ℚ) : ℚ := (roundHalfAway (q * 10000) : ℚ) / 10000

/-- The `Terrain` class: `width`, `length` and the mutable 2-d list
`_height_map` (row `y`, column `x`), idealised as a function. -/
structure Terrain where
  width : ℕ
  length : ℕ
  height_map : ℕ → ℕ → ℚ

/-- `Terrain.__init__`: all heights start at zero. -/
def Terrain.create (w l : ℕ) : Terrain := ⟨w, l, fun _ _ => 0⟩

/-- Python `i % n` for a Python int index and a positive modulus: the result
lies in `[0, n)`, which is exactly `Int.emod` for a positive right operand. -/
def pyMod (i : ℤ) (n : ℕ) : ℕ := (i % (n : ℤ)).toNat

/-- Functional update of one cell of a height map (row `r`, column `c`). -/
def updMap (m : ℕ → ℕ → ℚ) (r c : ℕ) (v : ℚ) : ℕ → ℕ → ℚ :=
  fun r2 c2 => if r2 = r ∧ c2 = c then v else m r2 c2

/-- `Terrain.__getitem__`: `self._height_map[item[1] % self.length][item[0] % self.width]`. -/
def getItem (t : Terrain) (x y : ℤ) : ℚ :=
  t.height_map (pyMod y t.length) (pyMod x t.width)

/-- `Terrain.__setitem__`: raises `HeightOutOfBoundsError` unless
`0 <= round(value, 3) <= 1`, then stores `round(value, 3)` at the
modulo-mapped cell. -/
def setItem (t : Terrain) (x y : ℤ) (v : ℚ) : Except Err Terrain :=
  if 0 ≤ pyRound3 v ∧ pyRound3 v ≤ 1 then
    .ok { t with height_map := updMap t.height_map (pyMod y t.length) (pyMod x t.width) (pyRound3 v) }
  else .error .heightOutOfBounds

/-- The common loop shape of `__add__` / `__sub__` / `__mul__`:
`for i in range(width): for j in range(length): result[i, j] = v i j`,
with every write going through the bounds-checked `__setitem__`. -/
def fillM (t0 : Terrain) (w l : ℕ) (v : ℕ → ℕ → ℚ) : Except Err Terrain :=
  (List.range w).foldlM
    (fun acc (i : ℕ) =>
      (List.range l).foldlM (fun a2 (j : ℕ) => setItem a2 (i : ℤ) (j : ℤ) (v i j)) acc)
    t0

/-- `Terrain.__add__`: dimension check, then elementwise
`result[i, j] = 1 if val > 1 else val` where `val = self[i, j] + other[i, j]`. -/
def addT (a b : Terrain) : Except Err Terrain :=
  if b.length ≠ a.length ∨ b.width ≠ a.width then .error .invalidDimensions
  else
    fillM (Terrain.create a.width a.length) a.width a.length
      (fun i j =>
        let val := getItem a (i : ℤ) (j : ℤ) + getItem b (i : ℤ) (j : ℤ)
        if val > 1 then 1 else val)

/-- `Terrain.__sub__`: dimension check, then elementwise
`result[i, j] = 0 if val < 0 else val` where `val = self[i, j] - other[i, j]`. -/
def subT (a b : Terrain) : Except Err Terrain :=
  if b.length ≠ a.length ∨ b.width ≠ a.width then .error .invalidDimensions
  else
    fillM (Terrain.create a.width a.length) a.width a.length
      (fun i j =>
        let val := getItem a (i : ℤ) (j : ℤ) - getItem b (i : ℤ) (j : ℤ)
        if val < 0 then 0 else val)

/-- `Terrain.get_vonneumann_neighbours`: the four candidates
`(x, y+1), (x-1, y), (x+1, y), (x, y-1)` filtered to the ones inside the
grid bounds (no wrap-around). -/
def getVonneumannNeighbours (t : Terrain) (x y : ℤ) : List (ℤ × ℤ) :=
  ([(x, y+1), (x-1, y), (x+1, y), (x, y-1)]).filter
    (fun p => decide (0 ≤ p.1 ∧ p.1 < (t.width : ℤ) ∧ 0 ≤ p.2 ∧ p.2 < (t.length : ℤ)))

/-- The body of `thermal_erode` for one cell `(x, y)`: a first scan over the
von Neumann neighbours accumulating `diff_total` and `diff_max`, then a
second loop that recomputes each difference against the already-mutated
heights and transfers `(diff_max - talus) * (difference / diff_total)`
through the bounds-checked `__setitem__`. -/
def cellStep (t : Terrain) (talus : ℚ) (x y : ℤ) : Except Err Terrain :=
  let nbrs := getVonneumannNeighbours t x y
  let scan := nbrs.foldl
    (fun (acc : ℚ × ℚ) n =>
      let difference := getItem t x y - getItem t n.1 n.2
      if difference > talus then
        (acc.1 + difference, if difference > acc.2 then difference else acc.2)
      else acc)
    (0, 0)
  nbrs.foldlM
    (fun cur n =>
      let difference := getItem cur x y - getItem cur n.1 n.2
      if difference > talus then
        let transferred := (scan.2 - talus) * (difference / scan.1)
        (setItem cur x y (getItem cur x y - transferred)).bind
          (fun cur1 => setItem cur1 n.1 n.2 (getItem cur1 n.1 n.2 + transferred))
      else .ok cur)
    t

/-- `Terrain.thermal_erode`: `iterations` full passes; inside one pass the
cells are processed with `x` as the outer loop and `y` as the inner loop,
mutating in place. -/
def thermalErode (t : Terrain) (iterations : ℕ) (talus : ℚ) : Except Err Terrain :=
  (List.range iterations).foldlM
    (fun cur0 _ =>
      (List.range cur0.width).foldlM
        (fun cur1 x =>
          (List.range cur1.length).foldlM
            (fun cur2 y => cellStep cur2 talus (x : ℤ) (y : ℤ)) cur1)
        cur0)
    t

/-- Squared Euclidean distance `(pnt[0] - x)**2 + (pnt[1] - y)**2` between a
seed point and a grid cell, as computed inside `_init_regions`. -/
def distSq (pnt : ℤ × ℤ) (x y : ℕ) : ℤ :=
  (pnt.1 - (x : ℤ))^2 + (pnt.2 - (y : ℤ))^2

/-- The inner loop of `_init_regions` for one cell: start from
`min_dist = width**2 + length**2` and index `0`, scan all seeds, keep the
first seed realising a strictly smaller squared distance (recording its
`self._points.index(pnt)`). -/
def closestPntIndex (points : List (ℤ × ℤ)) (w l : ℕ) (x y : ℕ) : ℕ :=
  (points.foldl
    (fun (acc : ℤ × ℕ) pnt =>
      if distSq pnt x y < acc.1 then (distSq pnt x y, points.indexOf pnt) else acc)
    ((w : ℤ)^2 + (l : ℤ)^2, 0)).2

/-- The `_region_map` rebuilt by `_init_regions`: row `y`, column `x`. -/
def regionMapOf (points : List (ℤ × ℤ)) (w l : ℕ) : List (List ℕ) :=
  (List.range l).map (fun y => (List.range w).map (fun x => closestPntIndex points w l x y))

/-- The cell traversal order of `_init_regions`:
`for x in range(width): for y in range(length)`. -/
def cellsInOrder (w l : ℕ) : List (ℕ × ℕ) :=
  (List.range w).flatMap (fun x => (List.range l).map (fun y => (x, y)))

/-- The `_point_regions` rebuilt by `_init_regions`: starting from one empty
list per seed, each visited cell is appended to the list of its recorded
closest seed (guarded by `len(self._point_regions) > 0` as in the source). -/
def pointRegionsOf (points : List (ℤ × ℤ)) (w l : ℕ) : List (List (ℕ × ℕ)) :=
  (cellsInOrder w l).foldl
    (fun regs c =>
      let idx := closestPntIndex points w l c.1 c.2
      if 0 < regs.length then regs.set idx (regs.getD idx [] ++ [c]) else regs)
    (points.map (fun _ => ([] : List (ℕ × ℕ))))

/-- The `VoronoiTerrain` class: a `Terrain` plus `_points`, `_region_map`,
`_point_regions` and `_feature_points`. -/
structure VoronoiTerrain extends Terrain where
  points : List (ℤ × ℤ)
  region_map : List (List ℕ)
  point_regions : List (List (ℕ × ℕ))
  feature_points : List (List (ℕ × ℕ))

/-- `VoronoiTerrain._init_regions`: resets `_point_regions` **and**
`_feature_points` to per-seed empty lists, then recomputes `_region_map` and
`_point_regions` from the current seed list. -/
def initRegions (v : VoronoiTerrain) : VoronoiTerrain :=
  { v with
    region_map := regionMapOf v.points v.width v.length
    point_regions := pointRegionsOf v.points v.width v.length
    feature_points := v.points.map (fun _ => []) }

/-- `VoronoiTerrain.__init__`: zero heights, store the seed list, then
`_init_regions`. -/
def VoronoiTerrain.create (w l : ℕ) (points : List (ℤ × ℤ)) : VoronoiTerrain :=
  initRegions { toTerrain := Terrain.create w l, points := points,
                region_map := (List.range l).map (fun _ => (List.range w).map (fun _ => 0)),
                point_regions := points.map (fun _ => []),
                feature_points := points.map (fun _ => []) }

/-- Python list subscription `l[i]` with an int index: non-negative indices
index from the front, indices in `[-len(l), 0)` index from the back, and
anything else raises `IndexError` (here: `none`). -/
def pyGetList {α : Type} (l : List α) (i : ℤ) : Option α :=
  if 0 ≤ i then l.get? i.toNat
  else if 0 ≤ i + (l.length : ℤ) then l.get? (i + (l.length : ℤ)).toNat
  else none

/-- `VoronoiTerrain.get_closest_point`: `self._region_map[y][x]` with raw
(unwrapped) Python list indexing; despite its docstring it returns the seed
*index*, not the seed's coordinates. -/
def getClosestPoint (v : VoronoiTerrain) (x y : ℤ) : Option ℕ :=
  (pyGetList v.region_map y).bind (fun row => pyGetList row x)

/-- `VoronoiTerrain.add_point`: append the seed and re-run `_init_regions`. -/
def addPoint (v : VoronoiTerrain) (x y : ℤ) : VoronoiTerrain :=
  initRegions { v with points := v.points ++ [(x, y)] }

/-- `VoronoiTerrain.get_region`: `self._point_regions[self.points.index((px, py))]`,
where a missing seed raises `ValueError` (here: `none`). -/
def getRegion (v : VoronoiTerrain) (px py : ℤ) : Option (List (ℕ × ℕ)) :=
  (v.points.indexOf? (px, py)).bind (fun i => v.point_regions.get? i)

/-- A Python runtime value, as far as the comparison inside
`get_region_edge` is concerned: `get_closest_point` produces an int, which
is compared with `==` against the tuple `(region_x, region_y)`.  Python's
cross-type `==` on an int and a tuple is `False`. -/
inductive PyVal where
  | int : ℕ → PyVal
  | pair : ℤ → ℤ → PyVal
  deriving DecidableEq, Repr

/-- The eight Moore-neighbour offsets used by `get_region_edge`, in source
order, wrapped by `% width` / `% length`. -/
def mooreWrapped (v : VoronoiTerrain) (x y : ℕ) : List (ℕ × ℕ) :=
  ([((x : ℤ)-1, (y : ℤ)-1), ((x : ℤ)-1, (y : ℤ)), ((x : ℤ)-1, (y : ℤ)+1),
    ((x : ℤ), (y : ℤ)-1), ((x : ℤ), (y : ℤ)+1),
    ((x : ℤ)+1, (y : ℤ)-1), ((x : ℤ)+1, (y : ℤ)), ((x : ℤ)+1, (y : ℤ)+1)]).map
    (fun n => (pyMod n.1 v.width, pyMod n.2 v.length))

/-- `VoronoiTerrain.get_region_edge`: a member cell is kept when **not** all
of its eight wrapped Moore neighbours satisfy
`self.get_closest_point(*n) == (region_x, region_y)` — an int-versus-tuple
comparison, which in Python is always `False`. -/
def getRegionEdge (v : VoronoiTerrain) (region_x region_y : ℤ) : Option (List (ℕ × ℕ)) :=
  (getRegion v region_x region_y).map
    (fun mem => mem.filter
      (fun c =>
        ! (mooreWrapped v c.1 c.2).all
          (fun n => decide ((getClosestPoint v (n.1 : ℤ) (n.2 : ℤ)).map PyVal.int
                            = some (PyVal.pair region_x region_y)))))

/-- `VoronoiTerrain.add_feature_point`: `OutOfRegionError` unless `(x, y)` is
a member of the chosen region, otherwise append it to that region's feature
list. -/
def addFeaturePoint (v : VoronoiTerrain) (region_x region_y : ℤ) (x y : ℕ) :
    Except Err VoronoiTerrain :=
  match v.points.indexOf? (region_x, region_y) with
  | none => .error .valueError
  | some i =>
    match v.point_regions.get? i with
    | none => .error .indexError
    | some region =>
      if (x, y) ∈ region then
        .ok { v with feature_points := v.feature_points.set i (v.feature_points.getD i [] ++ [(x, y)]) }
      else .error .outOfRegion

/-- The centroid computation inside `lloyd_relax` for one region: Python 2
integer division `sum(...) / len(region_points)`, raising
`ZeroDivisionError` when the region is empty. -/
def centroid (region : List (ℕ × ℕ)) : Except Err (ℤ × ℤ) :=
  if region.length = 0 then .error .zeroDivision
  else .ok (((region.map (fun p => p.1)).sum / region.length : ℕ),
            ((region.map (fun p => p.2)).sum / region.length : ℕ))

/-- The per-iteration loop of `lloyd_relax`: each seed is replaced by the
centroid of its current member list, in order; the first empty region raises. -/
def centroids : List (List (ℕ × ℕ)) → Except Err (List (ℤ × ℤ))
  | [] => .ok []
  | r :: rs =>
    (centroid r).bind (fun c => (centroids rs).map (fun cs => c :: cs))

/-- One iteration of `VoronoiTerrain.lloyd_relax`: recompute all seed
positions, then `_init_regions`. -/
def lloydRelaxOnce (v : VoronoiTerrain) : Except Err VoronoiTerrain :=
  (centroids v.point_regions).map (fun newPts => initRegions { v with points := newPts })

/-- `VoronoiTerrain.lloyd_relax` with `iters` iterations. -/
def lloydRelax (v : VoronoiTerrain) (iters : ℕ) : Except Err VoronoiTerrain :=
  (List.range iters).foldlM (fun cur _ => lloydRelaxOnce cur) v

/-- Decidable equality for `Except` values with decidable components (used to
evaluate concrete runs of the embedded code). -/
instance {e a : Type} [DecidableEq e] [DecidableEq a] : DecidableEq (Except e a) :=
  fun x y =>
    match x, y with
    | .error e1, .error e2 =>
      match decEq e1 e2 with
      | isTrue h => isTrue (congrArg Except.error h)
      | isFalse h => isFalse (fun hc => h (Except.error.inj hc))
    | .error e1, .ok a2 => isFalse (fun hc => Except.noConfusion hc)
    | .ok a1, .error e2 => isFalse (fun hc => Except.noConfusion hc)
    | .ok a1, .ok a2 =>
      match decEq a1 a2 with
      | isTrue h => isTrue (congrArg Except.ok h)
      | isFalse h => isFalse (fun hc => h (Except.ok.inj hc))

/-! ## Arithmetic helper lemmas -/

theorem pyMod_add_mul (x k : ℤ) (n : ℕ) : pyMod (x + k * (n : ℤ)) n = pyMod x n := by
  unfold pyMod
  rw [Int.add_mul_emod_self]

theorem pyGetList_eq_none {α : Type} (l : List α) (i : ℤ)
    (h : (l.length : ℤ) ≤ i ∨ i < -(l.length : ℤ)) : pyGetList l i = none := by
  rcases h with h | h
  · unfold pyGetList
    have h0 : 0 ≤ i := le_trans (Int.ofNat_nonneg _) h
    rw [if_pos h0]
    apply List.get?_eq_none.mpr
    omega
  · unfold pyGetList
    have h0 : ¬ 0 ≤ i := by
      have : (0 : ℤ) ≤ (l.length : ℤ) := Int.ofNat_nonneg _
      omega
    rw [if_neg h0, if_neg (by omega)]

theorem pyGetList_isSome {α : Type} (l : List α) (i : ℤ)
    (h1 : -(l.length : ℤ) ≤ i) (h2 : i < (l.length : ℤ)) : (pyGetList l i).isSome = true := by
  unfold pyGetList
  by_cases h0 : 0 ≤ i
  · rw [if_pos h0]
    rw [List.get?_eq_get (by omega)]
    rfl
  · rw [if_neg h0, if_pos (by omega)]
    rw [List.get?_eq_get (by omega)]
    rfl

/-! ## C7: toroidal read/write addressing -/

/-- C7 (confirmed).  For a cell `(x, y)` inside the grid and any integers
`k`, `j`, reading at `(x + k*width, y + j*length)` equals reading at
`(x, y)`, and writing any value at `(x + k*width, y + j*length)` produces
exactly the same outcome (same stored grid or same error) as writing it at
`(x, y)`. -/
theorem getItem_setItem_toroidal (t : Terrain) (x y k j : ℤ)
    (hx0 : 0 ≤ x) (hxw : x < (t.width : ℤ)) (hy0 : 0 ≤ y) (hyl : y < (t.length : ℤ)) :
    getItem t (x + k * (t.width : ℤ)) (y + j * (t.length : ℤ)) = getItem t x y ∧
    ∀ v : ℚ, setItem t (x + k * (t.width : ℤ)) (y + j * (t.length : ℤ)) v = setItem t x y v := by
  constructor
  · unfold getItem
    rw [pyMod_add_mul, pyMod_add_mul]
  · intro v
    unfold setItem
    rw [pyMod_add_mul, pyMod_add_mul]

/-- Witness for C7 at a concrete grid and concrete coordinates. -/
theorem getItem_setItem_toroidal_witness :
    getItem (Terrain.create 2 2) (1 + 3 * ((Terrain.create 2 2).width : ℤ))
        (0 + (-2) * ((Terrain.create 2 2).length : ℤ))
      = getItem (Terrain.create 2 2) 1 0 ∧
    setItem (Terrain.create 2 2) (1 + 3 * ((Terrain.create 2 2).width : ℤ))
        (0 + (-2) * ((Terrain.create 2 2).length : ℤ)) (1/2)
      = setItem (Terrain.create 2 2) 1 0 (1/2) := by
  have h := getItem_setItem_toroidal (Terrain.create 2 2) 1 0 3 (-2)
    (by norm_num) (by norm_num [Terrain.create]) (by norm_num) (by norm_num [Terrain.create])
  exact ⟨h.1, h.2 (1/2)⟩

/-! ## C10: region lookup is partial, unlike height reads -/

theorem regionMapOf_length (points : List (ℤ × ℤ)) (w l : ℕ) :
    (regionMapOf points w l).length = l := by
  simp [regionMapOf]

theorem regionMapOf_row_length (points : List (ℤ × ℤ)) (w l : ℕ) :
    ∀ row ∈ regionMapOf points w l, row.length = w := by
  intro row hrow
  unfold regionMapOf at hrow
  obtain ⟨y, _, rfl⟩ := List.mem_map.mp hrow
  simp

/-- C10 (confirmed).  Region lookup (`get_closest_point`) is partial: for a
freshly initialised partition, any query with `x ≥ width` or `y ≥ length`
indexes past `_region_map` and raises `IndexError` (modelled as `none`),
while every coordinate pair in `[-width, width) × [-length, length)` is
accepted through Python's negative indexing.  Height reads (`getItem`) by
contrast are total on all of `ℤ × ℤ` by construction. -/
theorem getClosestPoint_oob (w l : ℕ) (pts : List (ℤ × ℤ)) (x y : ℤ) :
    (((w : ℤ) ≤ x ∨ (l : ℤ) ≤ y) →
       getClosestPoint (VoronoiTerrain.create w l pts) x y = none) ∧
    ((-(w : ℤ) ≤ x ∧ x < (w : ℤ) ∧ -(l : ℤ) ≤ y ∧ y < (l : ℤ)) →
       (getClosestPoint (VoronoiTerrain.create w l pts) x y).isSome = true) := by
  have hmap : (VoronoiTerrain.create w l pts).region_map = regionMapOf pts w l := rfl
  have hlen : ((VoronoiTerrain.create w l pts).region_map.length : ℤ) = (l : ℤ) := by
    rw [hmap, regionMapOf_length]
  constructor
  · intro h
    rcases h with h | h
    · unfold getClosestPoint
      cases hrow : pyGetList (VoronoiTerrain.create w l pts).region_map y with
      | none => rfl
      | some row =>
        have hmem : row ∈ (VoronoiTerrain.create w l pts).region_map := by
          unfold pyGetList at hrow
          split at hrow
          · exact List.get?_mem hrow
          · split at hrow
            · exact List.get?_mem hrow
            · cases hrow
        have hrl : (row.length : ℤ) = (w : ℤ) := by
          rw [regionMapOf_row_length pts w l row (hmap ▸ hmem)]
        simp only [Option.bind_some, Option.some_bind]
        apply pyGetList_eq_none
        left
        omega
    · unfold getClosestPoint
      rw [pyGetList_eq_none _ _ (by omega)]
      rfl
  · intro ⟨h1, h2, h3, h4⟩
    unfold getClosestPoint
    have hrow : (pyGetList (VoronoiTerrain.create w l pts).region_map y).isSome = true :=
      pyGetList_isSome _ _ (by omega) (by omega)
    cases hrowe : pyGetList (VoronoiTerrain.create w l pts).region_map y with
    | none => rw [hrowe] at hrow; cases hrow
    | some row =>
      have hmem : row ∈ (VoronoiTerrain.create w l pts).region_map := by
        unfold pyGetList at hrowe
        split at hrowe
        · exact List.get?_mem hrowe
        · split at hrowe
          · exact List.get?_mem hrowe
          · cases hrowe
      have hrl : (row.length : ℤ) = (w : ℤ) := by
        rw [regionMapOf_row_length pts w l row (hmap ▸ hmem)]
      simp only [Option.some_bind]
      exact pyGetList_isSome _ _ (by omega) (by omega)

/-- Witness for C10 on a 2×2 partition: `x = 2` overruns and raises,
`x = -2` is accepted by negative indexing. -/
theorem getClosestPoint_oob_witness :
    getClosestPoint (VoronoiTerrain.create 2 2 [(0, 0), (1, 1)]) 2 0 = none ∧
    (getClosestPoint (VoronoiTerrain.create 2 2 [(0, 0), (1, 1)]) (-2) 0).isSome = true := by
  constructor
  · exact (getClosestPoint_oob 2 2 [(0, 0), (1, 1)] 2 0).1 (by norm_num)
  · exact (getClosestPoint_oob 2 2 [(0, 0), (1, 1)] (-2) 0).2 (by norm_num)

/-! ## C3: `get_region_edge` marks every member cell as an edge cell -/

/-- C3 (code bug).  On the single-seed 3×3 partition, `get_region_edge`
returns *all nine* member cells, although every wrapped Moore neighbour of
the interior cell `(1, 1)` (and of every other cell) lies in the same
region, index `0`.  The comparison
`self.get_closest_point(*n) == (region_x, region_y)` compares the int
returned by `get_closest_point` with a coordinate tuple, which in Python is
always `False`, so the `all(...)` test never succeeds and no cell is ever
excluded. -/
theorem getRegionEdge_returns_interior_cells :
    getRegionEdge (VoronoiTerrain.create 3 3 [(1, 1)]) 1 1
      = some [(0, 0), (0, 1), (0, 2), (1, 0), (1, 1), (1, 2), (2, 0), (2, 1), (2, 2)] ∧
    (∀ n ∈ mooreWrapped (VoronoiTerrain.create 3 3 [(1, 1)]) 1 1,
       getClosestPoint (VoronoiTerrain.create 3 3 [(1, 1)]) (n.1 : ℤ) (n.2 : ℤ) = some 0) ∧
    getClosestPoint (VoronoiTerrain.create 3 3 [(1, 1)]) 1 1 = some 0 := by
  refine ⟨by decide, by decide, by decide⟩

/-! ## C8: Lloyd relaxation on an empty region -/

theorem centroids_of_mem_nil (rs : List (List (ℕ × ℕ))) (h : [] ∈ rs) :
    centroids rs = .error .zeroDivision := by
  induction rs with
  | nil => cases h
  | cons r rs ih =>
    cases h with
    | head => rfl
    | tail _ h2 =>
      unfold centroids centroid
      split
      · rfl
      · rw [ih h2]
        rfl

/-- C8 (corrected).  When some region has zero member cells, `lloyd_relax`
fails with a raw `ZeroDivisionError` raised by the centroid computation
`sum(...) / len(region_points)`; no designated empty-region error exists in
the code. -/
theorem lloydRelax_empty_region_zeroDivision (v : VoronoiTerrain)
    (h : [] ∈ v.point_regions) : lloydRelax v 1 = .error .zeroDivision := by
  have hc : centroids v.point_regions = .error .zeroDivision := centroids_of_mem_nil _ h
  unfold lloydRelax
  rw [show List.range 1 = [0] from rfl]
  simp only [List.foldlM_cons, List.foldlM_nil, bind_pure]
  unfold lloydRelaxOnce
  rw [hc]
  rfl

/-- Counterexample to C8 as stated: a reachable partition (grid 2×2, seeds
`(0,0)` and `(50,50)`; the second seed never wins a cell) on which
`lloyd_relax` surfaces the raw division-by-zero, not a designated error. -/
theorem lloydRelax_empty_region_counterexample :
    lloydRelax (VoronoiTerrain.create 2 2 [(0, 0), (50, 50)]) 1 = .error .zeroDivision := by
  rfl

/-- Witness for the amended C8 theorem at the same concrete partition. -/
theorem lloydRelax_empty_region_witness :
    lloydRelax (VoronoiTerrain.create 2 2 [(0, 0), (50, 50)]) 1 = .error .zeroDivision :=
  lloydRelax_empty_region_zeroDivision (VoronoiTerrain.create 2 2 [(0, 0), (50, 50)])
    (by decide)

/-! ## C9: feature points after recomputing the partition -/

/-- Concrete 3×1 partition used for C9. -/
def v9 : VoronoiTerrain := VoronoiTerrain.create 3 1 [(0, 0), (2, 0)]

/-- Counterexample to C9 as stated: after adding feature point `(1, 0)` to
seed `(0, 0)`'s region, one Lloyd iteration (which succeeds) leaves the
feature lists not merely stale but *empty*: `_init_regions` resets
`_feature_points`. -/
theorem featurePoints_wiped_counterexample :
    (addFeaturePoint v9 0 0 1 0).map (fun u => u.feature_points)
      = .ok [[(1, 0)], []] ∧
    ((addFeaturePoint v9 0 0 1 0).bind (fun u => lloydRelax u 1)).map
        (fun u => u.feature_points)
      = .ok [[], []] := by
  exact ⟨rfl, rfl⟩

/-- C9 (amended).  Recomputing the partition erases the stored feature-point
lists: any successful Lloyd relaxation (at least one iteration) returns a
state whose feature lists are all empty, and `add_point` likewise resets all
feature lists, because `_init_regions` reinitialises `_feature_points`. -/
theorem featurePoints_reset_on_recompute (v w : VoronoiTerrain) (n : ℕ)
    (h : lloydRelax v (n + 1) = .ok w) :
    w.feature_points = w.points.map (fun _ => []) ∧
    ∀ x y : ℤ, (addPoint v x y).feature_points = (addPoint v x y).points.map (fun _ => []) := by
  constructor
  · unfold lloydRelax at h
    rw [List.range_succ, List.foldlM_append] at h
    cases hmid : (List.range n).foldlM (fun cur _ => lloydRelaxOnce cur) v with
    | error e =>
      rw [hmid] at h
      simp only [Bind.bind, Except.bind] at h
      cases h
    | ok mid =>
      rw [hmid] at h
      simp only [List.foldlM_cons, List.foldlM_nil, Bind.bind, Except.bind, Pure.pure] at h
      have h2 : lloydRelaxOnce mid = .ok w := by
        cases honce : lloydRelaxOnce mid with
        | error e => rw [honce] at h; cases h
        | ok w2 => rw [honce] at h; cases h; rfl
      unfold lloydRelaxOnce at h2
      cases hcent : centroids mid.point_regions with
      | error e => rw [hcent] at h2; cases h2
      | ok pts =>
        rw [hcent] at h2
        simp only [Except.map] at h2
        cases h2
        rfl
  · intro x y
    rfl

/-- Witness for the amended C9 theorem: the relaxed state of the concrete
3×1 partition has all-empty feature lists. -/
def v9relaxed : VoronoiTerrain := initRegions { v9 with points := [(0, 0), (2, 0)] }

theorem featurePoints_reset_witness :
    v9relaxed.feature_points = v9relaxed.points.map (fun _ => []) :=
  (featurePoints_reset_on_recompute v9 v9relaxed 0 (by rfl)).1

/-! ## C2: elementwise add/subtract clamp rather than raise -/

theorem pyRound3_nonneg (q : ℚ) (h : 0 ≤ q) : 0 ≤ pyRound3 q := by
  unfold pyRound3 roundHalfAway
  rw [if_pos (by positivity : (0 : ℚ) ≤ q * 1000)]
  have hf : (0 : ℤ) ≤ ⌊q * 1000 + 1/2⌋ := Int.le_floor.mpr (by push_cast; linarith)
  have hf2 : (0 : ℚ) ≤ (⌊q * 1000 + 1/2⌋ : ℚ) := by exact_mod_cast hf
  positivity

theorem pyRound3_le_one (q : ℚ) (h0 : 0 ≤ q) (h1 : q ≤ 1) : pyRound3 q ≤ 1 := by
  unfold pyRound3 roundHalfAway
  rw [if_pos (by positivity : (0 : ℚ) ≤ q * 1000)]
  have h2 : ⌊q * 1000 + 1/2⌋ ≤ ⌊(2001 : ℚ)/2⌋ := Int.floor_le_floor (by linarith)
  have h3 : (⌊(2001 : ℚ)/2⌋ : ℤ) = 1000 := by norm_num
  rw [div_le_one (by norm_num)]
  have : (⌊q * 1000 + 1/2⌋ : ℚ) ≤ (1000 : ℚ) := by exact_mod_cast h3 ▸ h2
  linarith

theorem pyMod_self_of_lt (i n : ℕ) (h : i < n) : pyMod (i : ℤ) n = i := by
  unfold pyMod
  rw [Int.emod_eq_of_lt (by positivity) (by exact_mod_cast h)]
  exact Int.toNat_natCast i

theorem getItem_in_range (t : Terrain) (i j : ℕ) (hi : i < t.width) (hj : j < t.length) :
    getItem t (i : ℤ) (j : ℤ) = t.height_map j i := by
  unfold getItem
  rw [pyMod_self_of_lt i t.width hi, pyMod_self_of_lt j t.length hj]

theorem setItem_in_range (t : Terrain) (i j : ℕ) (hi : i < t.width) (hj : j < t.length) (v : ℚ)
    (hb : 0 ≤ pyRound3 v ∧ pyRound3 v ≤ 1) :
    setItem t (i : ℤ) (j : ℤ) v =
      .ok { t with height_map := updMap t.height_map j i (pyRound3 v) } := by
  unfold setItem
  rw [if_pos hb, pyMod_self_of_lt i t.width hi, pyMod_self_of_lt j t.length hj]

theorem fill_col (W L : ℕ) (v : ℕ → ℕ → ℚ) (i : ℕ) (hi : i < W) :
    ∀ n, n ≤ L → ∀ t : Terrain, t.width = W → t.length = L →
      (∀ j, j < n → 0 ≤ pyRound3 (v i j) ∧ pyRound3 (v i j) ≤ 1) →
      ∃ t1 : Terrain,
        (List.range n).foldlM (fun a2 (j : ℕ) => setItem a2 (i : ℤ) (j : ℤ) (v i j)) t = .ok t1 ∧
        t1.width = W ∧ t1.length = L ∧
        (∀ r c : ℕ, t1.height_map r c =
           if c = i ∧ r < n then pyRound3 (v i r) else t.height_map r c) := by
  intro n
  induction n with
  | zero =>
    intro _ t htw htl _
    refine ⟨t, ?_, htw, htl, ?_⟩
    · rfl
    · intro r c
      simp
  | succ n ih =>
    intro hle t htw htl hb
    obtain ⟨t1, hfold, ht1w, ht1l, hmap⟩ := ih (by omega) t htw htl (fun j hj => hb j (by omega))
    rw [List.range_succ, List.foldlM_append, hfold]
    refine ⟨{ t1 with height_map := updMap t1.height_map n i (pyRound3 (v i n)) }, ?_, ht1w, ht1l, ?_⟩
    · simp only [Bind.bind, Except.bind, List.foldlM_cons, List.foldlM_nil]
      rw [setItem_in_range t1 i n (by omega) (by omega) (v i n) (hb n (by omega))]
      rfl
    · intro r c
      simp only [updMap]
      rw [hmap r c]
      by_cases hc : c = i
      · subst hc
        by_cases hr : r = n
        · subst hr
          simp
        · have h1 : ¬ (r = n ∧ c = c) := by tauto
          rw [if_neg (by tauto)]
          by_cases hrn : r < n
          · rw [if_pos ⟨rfl, hrn⟩, if_pos ⟨rfl, by omega⟩]
          · rw [if_neg (by tauto), if_neg (by omega)]
      · rw [if_neg (by tauto), if_neg (by tauto), if_neg (by tauto)]

theorem fill_all (W L : ℕ) (v : ℕ → ℕ → ℚ) :
    ∀ m, m ≤ W → ∀ t : Terrain, t.width = W → t.length = L →
      (∀ i j, i < m → j < L → 0 ≤ pyRound3 (v i j) ∧ pyRound3 (v i j) ≤ 1) →
      ∃ t1 : Terrain,
        (List.range m).foldlM
            (fun acc (i : ℕ) =>
              (List.range L).foldlM (fun a2 (j : ℕ) => setItem a2 (i : ℤ) (j : ℤ) (v i j)) acc) t
          = .ok t1 ∧
        t1.width = W ∧ t1.length = L ∧
        (∀ r c : ℕ, t1.height_map r c =
           if c < m ∧ r < L then pyRound3 (v c r) else t.height_map r c) := by
  intro m
  induction m with
  | zero =>
    intro _ t htw htl _
    refine ⟨t, rfl, htw, htl, ?_⟩
    intro r c
    simp
  | succ m ih =>
    intro hle t htw htl hb
    obtain ⟨t1, hfold, ht1w, ht1l, hmap⟩ :=
      ih (by omega) t htw htl (fun i j hi hj => hb i j (by omega) hj)
    rw [List.range_succ, List.foldlM_append, hfold]
    obtain ⟨t2, hcol, ht2w, ht2l, hmap2⟩ :=
      fill_col W L v m (by omega) L (le_refl L) t1 ht1w ht1l
        (fun j hj => hb m j (by omega) (by omega))
    refine ⟨t2, ?_, ht2w, ht2l, ?_⟩
    · simp only [Bind.bind, Except.bind, List.foldlM_cons, List.foldlM_nil]
      rw [hcol]
      rfl
    · intro r c
      rw [hmap2 r c, hmap r c]
      by_cases hc : c = m
      · subst hc
        by_cases hr : r < L
        · rw [if_pos ⟨rfl, hr⟩, if_pos ⟨by omega, hr⟩]
        · rw [if_neg (by tauto), if_neg (by tauto), if_neg (by tauto)]
      · rw [if_neg (by tauto)]
        by_cases hcm : c < m
        · by_cases hr : r < L
          · rw [if_pos ⟨hcm, hr⟩, if_pos ⟨by omega, hr⟩]
          · rw [if_neg (by tauto), if_neg (by tauto)]
        · rw [if_neg (by tauto), if_neg (by omega)]

/-- The result of `__add__` as the amended claim describes it: elementwise
`round(min(sum, 1), 3)` on a fresh all-zero grid (sums above 1 are clamped
to 1; nothing is rejected). -/
def addSpec (a b : Terrain) : Terrain :=
  ⟨a.width, a.length, fun r c =>
    if c < a.width ∧ r < a.length then
      pyRound3 (let val := a.height_map r c + b.height_map r c; if val > 1 then 1 else val)
    else 0⟩

/-- The result of `__sub__` as the amended claim describes it: elementwise
`round(max(difference, 0), 3)` (differences below 0 are clamped to 0). -/
def subSpec (a b : Terrain) : Terrain :=
  ⟨a.width, a.length, fun r c =>
    if c < a.width ∧ r < a.length then
      pyRound3 (let val := a.height_map r c - b.height_map r c; if val < 0 then 0 else val)
    else 0⟩

/-- C2 (amended).  For same-dimension grids whose stored heights are within
`[0, 1]`, `__add__` and `__sub__` never raise `HeightOutOfBoundsError`:
they *clamp* (sums above 1 to 1, differences below 0 to 0) and succeed. -/
theorem addT_subT_clamp (a b : Terrain)
    (hw : b.width = a.width) (hl : b.length = a.length)
    (ha : ∀ r c : ℕ, r < a.length → c < a.width →
            0 ≤ a.height_map r c ∧ a.height_map r c ≤ 1)
    (hb : ∀ r c : ℕ, r < b.length → c < b.width →
            0 ≤ b.height_map r c ∧ b.height_map r c ≤ 1) :
    addT a b = .ok (addSpec a b) ∧ subT a b = .ok (subSpec a b) := by
  have hget : ∀ i j : ℕ, i < a.width → j < a.length →
      getItem a (i : ℤ) (j : ℤ) = a.height_map j i ∧
      getItem b (i : ℤ) (j : ℤ) = b.height_map j i := by
    intro i j hi hj
    exact ⟨getItem_in_range a i j hi hj,
           getItem_in_range b i j (by omega) (by omega)⟩
  constructor
  · unfold addT
    rw [if_neg (by tauto)]
    unfold fillM
    obtain ⟨t1, hfold, ht1w, ht1l, hmap⟩ :=
      fill_all a.width a.length
        (fun i j =>
          let val := getItem a (i : ℤ) (j : ℤ) + getItem b (i : ℤ) (j : ℤ)
          if val > 1 then 1 else val)
        a.width (le_refl _) (Terrain.create a.width a.length) rfl rfl
        (fun i j hi hj => by
          obtain ⟨hga, hgb⟩ := hget i j hi hj
          have haij := ha j i hj hi
          have hbij := hb j i (by omega) (by omega)
          simp only [hga, hgb]
          constructor
          · apply pyRound3_nonneg
            split
            · norm_num
            · linarith
          · apply pyRound3_le_one
            · split
              · norm_num
              · linarith
            · split
              · linarith
              · linarith)
    rw [hfold]
    congr 1
    obtain ⟨ww, ll, mm⟩ := t1
    simp only [addSpec]
    simp only at ht1w ht1l
    subst ht1w ht1l
    congr 1
    funext r c
    refine (hmap r c).trans ?_
    by_cases hin : c < a.width ∧ r < a.length
    · rw [if_pos hin, if_pos hin]
      obtain ⟨hga, hgb⟩ := hget c r hin.1 hin.2
      simp only [hga, hgb]
    · rw [if_neg hin, if_neg hin]
      rfl
  · unfold subT
    rw [if_neg (by tauto)]
    unfold fillM
    obtain ⟨t1, hfold, ht1w, ht1l, hmap⟩ :=
      fill_all a.width a.length
        (fun i j =>
          let val := getItem a (i : ℤ) (j : ℤ) - getItem b (i : ℤ) (j : ℤ)
          if val < 0 then 0 else val)
        a.width (le_refl _) (Terrain.create a.width a.length) rfl rfl
        (fun i j hi hj => by
          obtain ⟨hga, hgb⟩ := hget i j hi hj
          have haij := ha j i hj hi
          have hbij := hb j i (by omega) (by omega)
          simp only [hga, hgb]
          constructor
          · apply pyRound3_nonneg
            split
            · norm_num
            · linarith
          · apply pyRound3_le_one
            · split
              · norm_num
              · linarith
            · split
              · norm_num
              · linarith)
    rw [hfold]
    congr 1
    obtain ⟨ww, ll, mm⟩ := t1
    simp only [subSpec]
    simp only at ht1w ht1l
    subst ht1w ht1l
    congr 1
    funext r c
    refine (hmap r c).trans ?_
    by_cases hin : c < a.width ∧ r < a.length
    · rw [if_pos hin, if_pos hin]
      obtain ⟨hga, hgb⟩ := hget c r hin.1 hin.2
      simp only [hga, hgb]
    · rw [if_neg hin, if_neg hin]
      rfl

/-- A 1×1 grid whose single height is 1. -/
def one1 : Terrain := ⟨1, 1, fun _ _ => 1⟩

theorem pyRound3_one : pyRound3 1 = 1 := by
  unfold pyRound3 roundHalfAway
  norm_num

theorem pyRound3_zero : pyRound3 0 = 0 := by
  unfold pyRound3 roundHalfAway
  norm_num

theorem addT_one1_eval :
    addT one1 one1 = .ok (Terrain.mk 1 1 (updMap (fun _ _ => 0) 0 0 (pyRound3 1))) := by
  unfold addT
  rw [if_neg (by norm_num [one1])]
  unfold fillM
  rw [show one1.width = 1 from rfl, show one1.length = 1 from rfl,
      show List.range 1 = [0] from rfl]
  simp only [List.foldlM_cons, List.foldlM_nil, bind_pure, Nat.cast_zero]
  rw [show (getItem one1 (0 : ℤ) (0 : ℤ) : ℚ) = 1 from rfl]
  rw [if_pos (by norm_num : (1 : ℚ) + 1 > 1)]
  unfold setItem
  rw [if_pos ⟨by rw [pyRound3_one]; norm_num, by rw [pyRound3_one]⟩]
  rfl

theorem subT_one1_eval :
    subT (Terrain.create 1 1) one1 = .ok (Terrain.mk 1 1 (updMap (fun _ _ => 0) 0 0 (pyRound3 0))) := by
  unfold subT
  rw [if_neg (by norm_num [one1, Terrain.create])]
  unfold fillM
  rw [show (Terrain.create 1 1).width = 1 from rfl, show (Terrain.create 1 1).length = 1 from rfl,
      show List.range 1 = [0] from rfl]
  simp only [List.foldlM_cons, List.foldlM_nil, bind_pure, Nat.cast_zero]
  rw [show (getItem (Terrain.create 1 1) (0 : ℤ) (0 : ℤ) : ℚ) = 0 from rfl,
      show (getItem one1 (0 : ℤ) (0 : ℤ) : ℚ) = 1 from rfl]
  rw [if_pos (by norm_num : (0 : ℚ) - 1 < 0)]
  unfold setItem
  rw [if_pos ⟨by rw [pyRound3_zero], by rw [pyRound3_zero]; norm_num⟩]
  rfl

/-- Counterexample to C2 as stated: adding two all-ones grids gives a cell
sum of 2 (outside `[0, 1]`), yet `__add__` succeeds and stores the clamped
value 1; subtracting 1 from 0 gives −1, yet `__sub__` succeeds and stores 0.
Neither raises `HeightOutOfBoundsError`. -/
theorem addT_subT_no_error_counterexample :
    (addT one1 one1).map (fun t => getItem t 0 0) = .ok 1 ∧
    (subT (Terrain.create 1 1) one1).map (fun t => getItem t 0 0) = .ok 0 ∧
    ¬ addT one1 one1 = .error .heightOutOfBounds := by
  refine ⟨?_, ?_, ?_⟩
  · rw [addT_one1_eval]
    simp only [Except.map]
    rw [show getItem (Terrain.mk 1 1 (updMap (fun _ _ => 0) 0 0 (pyRound3 1))) 0 0
          = pyRound3 1 from rfl]
    rw [pyRound3_one]
  · rw [subT_one1_eval]
    simp only [Except.map]
    rw [show getItem (Terrain.mk 1 1 (updMap (fun _ _ => 0) 0 0 (pyRound3 0))) 0 0
          = pyRound3 0 from rfl]
    rw [pyRound3_zero]
  · intro h
    rw [addT_one1_eval] at h
    cases h

/-- Witness for the amended C2 theorem at concrete 1×1 grids. -/
theorem addT_subT_clamp_witness :
    addT one1 one1 = .ok (addSpec one1 one1) ∧
    subT one1 one1 = .ok (subSpec one1 one1) :=
  addT_subT_clamp one1 one1 rfl rfl
    (fun _ _ _ _ => by norm_num [one1])
    (fun _ _ _ _ => by norm_num [one1])

/-! ## C1: the nearest-seed partition invariant -/

theorem indexOf_append_cons (pre suf : List (ℤ × ℤ)) (p : ℤ × ℤ) (hnotmem : p ∉ pre) :
    (pre ++ p :: suf).indexOf p = pre.length := by
  induction pre with
  | nil =>
    rw [List.nil_append, List.indexOf_cons]
    simp
  | cons a pre ih =>
    have hap : (a == p) = false := by
      cases hbe : (a == p) with
      | false => rfl
      | true =>
        exact absurd ((eq_of_beq hbe) ▸ List.mem_cons_self a pre) hnotmem
    rw [List.cons_append, List.indexOf_cons, hap]
    simp only [Bool.cond_false]
    rw [ih (fun h => hnotmem (List.mem_cons_of_mem a h))]
    rfl

theorem indexOf_position (points pre suf : List (ℤ × ℤ)) (p : ℤ × ℤ)
    (hnd : points.Nodup) (hp : points = pre ++ p :: suf) :
    points.indexOf p = pre.length := by
  have hnotmem : p ∉ pre := by
    have hnd2 : (pre ++ p :: suf).Nodup := hp ▸ hnd
    rcases List.nodup_append.mp hnd2 with ⟨_, _, hdisj⟩
    intro hmem
    exact hdisj hmem (List.mem_cons_self p suf)
  rw [hp]
  exact indexOf_append_cons pre suf p hnotmem

theorem getD_position (points pre suf : List (ℤ × ℤ)) (p : ℤ × ℤ)
    (hp : points = pre ++ p :: suf) :
    points.getD pre.length (0, 0) = p := by
  rw [hp, List.getD_append_right _ _ _ _ (le_refl pre.length)]
  simp

theorem closest_fold_bridge (points : List (ℤ × ℤ)) (x y : ℕ) (hnd : points.Nodup) :
    ∀ suf pre : List (ℤ × ℤ), points = pre ++ suf → ∀ acc : ℤ × ℕ,
      suf.foldl
          (fun acc pnt =>
            if distSq pnt x y < acc.1 then (distSq pnt x y, points.indexOf pnt) else acc) acc
        = (List.range' pre.length suf.length).foldl
            (fun acc k =>
              if distSq (points.getD k (0, 0)) x y < acc.1
              then (distSq (points.getD k (0, 0)) x y, k) else acc) acc := by
  intro suf
  induction suf with
  | nil => intro pre hp acc; rfl
  | cons p suf ih =>
    intro pre hp acc
    have hidx : points.indexOf p = pre.length := indexOf_position points pre suf p hnd hp
    have hget : points.getD pre.length (0, 0) = p := getD_position points pre suf p hp
    rw [List.length_cons, List.range'_succ, List.foldl_cons, List.foldl_cons, hidx, hget]
    have hp2 : points = (pre ++ [p]) ++ suf := by rw [hp]; simp
    have := ih (pre ++ [p]) hp2
    rw [List.length_append, List.length_cons, List.length_nil] at this
    exact this _

theorem foldRange_argmin (d : ℕ → ℤ) (D0 : ℤ) :
    ∀ n, 0 < n → (∀ k, k < n → d k < D0) →
      ((List.range' 0 n).foldl (fun acc k => if d k < acc.1 then (d k, k) else acc) (D0, 0)).2 < n ∧
      ((List.range' 0 n).foldl (fun acc k => if d k < acc.1 then (d k, k) else acc) (D0, 0)).1
        = d ((List.range' 0 n).foldl (fun acc k => if d k < acc.1 then (d k, k) else acc) (D0, 0)).2 ∧
      (∀ k, k < n →
        d ((List.range' 0 n).foldl (fun acc k => if d k < acc.1 then (d k, k) else acc) (D0, 0)).2 ≤ d k) ∧
      (∀ k, k < n →
        d k = d ((List.range' 0 n).foldl (fun acc k => if d k < acc.1 then (d k, k) else acc) (D0, 0)).2 →
        ((List.range' 0 n).foldl (fun acc k => if d k < acc.1 then (d k, k) else acc) (D0, 0)).2 ≤ k) := by
  intro n
  induction n with
  | zero => intro h; omega
  | succ n ih =>
    intro _ hb
    by_cases hn0 : n = 0
    · subst hn0
      rw [show List.range' 0 1 = [0] from rfl, List.foldl_cons, List.foldl_nil,
          if_pos (hb 0 (by omega))]
      refine ⟨by omega, rfl, ?_, ?_⟩
      · intro k hk
        have : k = 0 := by omega
        subst this
        exact le_refl _
      · intro k hk _
        omega
    · have hn : 0 < n := by omega
      obtain ⟨h1, h2, h3, h4⟩ := ih hn (fun k hk => hb k (by omega))
      rw [show n + 1 = n + 1 from rfl, List.range'_concat, List.foldl_append,
          List.foldl_cons, List.foldl_nil]
      rw [show 0 + 1 * n = n by omega]
      set res := (List.range' 0 n).foldl (fun acc k => if d k < acc.1 then (d k, k) else acc) (D0, 0)
        with hres
      by_cases hlt : d n < res.1
      · rw [if_pos hlt]
        dsimp only
        refine ⟨by omega, rfl, ?_, ?_⟩
        · intro k hk
          rcases (by omega : k < n ∨ k = n) with hk2 | hk2
          · exact le_of_lt (lt_of_lt_of_le (h2 ▸ hlt) (h3 k hk2))
          · subst hk2; exact le_refl _
        · intro k hk heq
          rcases (by omega : k < n ∨ k = n) with hk2 | hk2
          · exfalso
            have h5 := h3 k hk2
            rw [heq] at h5
            rw [h2] at hlt
            omega
          · omega
      · rw [if_neg hlt]
        refine ⟨by omega, h2, ?_, ?_⟩
        · intro k hk
          rcases (by omega : k < n ∨ k = n) with hk2 | hk2
          · exact h3 k hk2
          · subst hk2
            rw [← h2]
            omega
        · intro k hk heq
          rcases (by omega : k < n ∨ k = n) with hk2 | hk2
          · exact h4 k hk2 heq
          · omega

theorem distSq_lt_bound (p : ℤ × ℤ) (w l x y : ℕ)
    (hp : 0 ≤ p.1 ∧ p.1 < (w : ℤ) ∧ 0 ≤ p.2 ∧ p.2 < (l : ℤ))
    (hx : x < w) (hy : y < l) : distSq p x y < (w : ℤ)^2 + (l : ℤ)^2 := by
  obtain ⟨h1, h2, h3, h4⟩ := hp
  have hxw : (x : ℤ) < (w : ℤ) := by exact_mod_cast hx
  have hyl : (y : ℤ) < (l : ℤ) := by exact_mod_cast hy
  have hx0 : (0 : ℤ) ≤ (x : ℤ) := Int.ofNat_nonneg x
  have hy0 : (0 : ℤ) ≤ (y : ℤ) := Int.ofNat_nonneg y
  have ha : (p.1 - (x : ℤ))^2 ≤ ((w : ℤ) - 1)^2 := sq_le_sq' (by omega) (by omega)
  have hb : (p.2 - (y : ℤ))^2 ≤ ((l : ℤ) - 1)^2 := sq_le_sq' (by omega) (by omega)
  unfold distSq
  nlinarith [ha, hb, hxw, hyl, hx0, hy0]

theorem closestPntIndex_spec (points : List (ℤ × ℤ)) (w l x y : ℕ)
    (hne : points ≠ []) (hnd : points.Nodup)
    (hin : ∀ p ∈ points, 0 ≤ p.1 ∧ p.1 < (w : ℤ) ∧ 0 ≤ p.2 ∧ p.2 < (l : ℤ))
    (hx : x < w) (hy : y < l) :
    closestPntIndex points w l x y < points.length ∧
    (∀ k, k < points.length →
      distSq (points.getD (closestPntIndex points w l x y) (0, 0)) x y
        ≤ distSq (points.getD k (0, 0)) x y) ∧
    (∀ k, k < points.length →
      distSq (points.getD k (0, 0)) x y
          = distSq (points.getD (closestPntIndex points w l x y) (0, 0)) x y →
      closestPntIndex points w l x y ≤ k) := by
  have hbridge := closest_fold_bridge points x y hnd points [] rfl ((w : ℤ)^2 + (l : ℤ)^2, 0)
  simp only [List.length_nil] at hbridge
  have hcl : closestPntIndex points w l x y
      = ((List.range' 0 points.length).foldl
          (fun acc k =>
            if distSq (points.getD k (0, 0)) x y < acc.1
            then (distSq (points.getD k (0, 0)) x y, k) else acc)
          ((w : ℤ)^2 + (l : ℤ)^2, 0)).2 := by
    unfold closestPntIndex
    rw [hbridge]
  have hpos : 0 < points.length := List.length_pos.mpr hne
  have hbound : ∀ k, k < points.length →
      distSq (points.getD k (0, 0)) x y < (w : ℤ)^2 + (l : ℤ)^2 := by
    intro k hk
    have hmem : points.getD k (0, 0) ∈ points := by
      rw [List.getD_eq_getElem _ _ hk]
      exact List.getElem_mem _
    exact distSq_lt_bound _ w l x y (hin _ hmem) hx hy
  obtain ⟨h1, _, h3, h4⟩ :=
    foldRange_argmin (fun k => distSq (points.getD k (0, 0)) x y)
      ((w : ℤ)^2 + (l : ℤ)^2) points.length hpos hbound
  rw [hcl]
  exact ⟨h1, h3, h4⟩

theorem regionMapOf_entry (points : List (ℤ × ℤ)) (w l x y : ℕ) (hx : x < w) (hy : y < l) :
    ((regionMapOf points w l).getD y []).getD x 0 = closestPntIndex points w l x y := by
  have h1 : (regionMapOf points w l).getD y []
      = (List.range w).map (fun x => closestPntIndex points w l x y) := by
    unfold regionMapOf
    rw [List.getD_eq_getElem _ _ (by simpa using hy)]
    simp
  rw [h1, List.getD_eq_getElem _ _ (by simpa using hx)]
  simp

theorem mem_cellsInOrder (w l : ℕ) (c : ℕ × ℕ) :
    c ∈ cellsInOrder w l ↔ c.1 < w ∧ c.2 < l := by
  unfold cellsInOrder
  cases c with
  | mk a b =>
    simp only [List.mem_flatMap, List.mem_map, List.mem_range, Prod.mk.injEq]
    constructor
    · rintro ⟨xx, hxx, yy, hyy, he1, he2⟩
      exact ⟨he1 ▸ hxx, he2 ▸ hyy⟩
    · rintro ⟨h1, h2⟩
      exact ⟨a, h1, b, h2, rfl, rfl⟩

theorem cellsInOrder_nodup (w l : ℕ) : (cellsInOrder w l).Nodup := by
  have he : cellsInOrder w l = (List.range w).product (List.range l) := rfl
  rw [he]
  exact List.Nodup.product (List.nodup_range w) (List.nodup_range l)

theorem buckets_foldl (idx : ℕ × ℕ → ℕ) :
    ∀ (cells : List (ℕ × ℕ)) (B : List (List (ℕ × ℕ))),
      (∀ c ∈ cells, idx c < B.length) →
      (cells.foldl
          (fun regs c =>
            if 0 < regs.length then regs.set (idx c) (regs.getD (idx c) [] ++ [c]) else regs)
          B).length = B.length ∧
      ∀ i : ℕ,
        (cells.foldl
            (fun regs c =>
              if 0 < regs.length then regs.set (idx c) (regs.getD (idx c) [] ++ [c]) else regs)
            B).getD i []
          = B.getD i [] ++ cells.filter (fun c => decide (idx c = i)) := by
  intro cells
  induction cells with
  | nil =>
    intro B _
    exact ⟨rfl, fun i => by simp⟩
  | cons c cells ih =>
    intro B hB
    have hc : idx c < B.length := hB c (List.mem_cons_self c cells)
    have hpos : 0 < B.length := by omega
    rw [List.foldl_cons, if_pos hpos]
    have hlen2 : (B.set (idx c) (B.getD (idx c) [] ++ [c])).length = B.length :=
      List.length_set B (idx c) _
    obtain ⟨ihlen, ihget⟩ := ih (B.set (idx c) (B.getD (idx c) [] ++ [c]))
      (fun c2 hc2 => by rw [hlen2]; exact hB c2 (List.mem_cons_of_mem c hc2))
    constructor
    · rw [ihlen, hlen2]
    · intro i
      rw [ihget i]
      by_cases hi : idx c = i
      · subst hi
        have hgd : (B.set (idx c) (B.getD (idx c) [] ++ [c])).getD (idx c) []
            = B.getD (idx c) [] ++ [c] := by
          rw [List.getD_eq_getD_get?, List.get?_set_eq_of_lt _ hc]
          rfl
        rw [hgd, List.filter_cons_of_pos (by simp), List.append_assoc]
        rfl
      · have hgd : (B.set (idx c) (B.getD (idx c) [] ++ [c])).getD i []
            = B.getD i [] := by
          rw [List.getD_eq_getD_get?, List.get?_set_ne _ _ hi, ← List.getD_eq_getD_get?]
        rw [hgd, List.filter_cons_of_neg (by simp [hi])]

theorem pointRegionsOf_spec (points : List (ℤ × ℤ)) (w l : ℕ)
    (hlt : ∀ c ∈ cellsInOrder w l, closestPntIndex points w l c.1 c.2 < points.length) :
    (pointRegionsOf points w l).length = points.length ∧
    ∀ i : ℕ, (pointRegionsOf points w l).getD i []
      = (cellsInOrder w l).filter (fun c => decide (closestPntIndex points w l c.1 c.2 = i)) := by
  have hB : ∀ c ∈ cellsInOrder w l,
      (fun c : ℕ × ℕ => closestPntIndex points w l c.1 c.2) c
        < (points.map (fun _ => ([] : List (ℕ × ℕ)))).length := by
    intro c hcm
    rw [List.length_map]
    exact hlt c hcm
  obtain ⟨h1, h2⟩ := buckets_foldl (fun c => closestPntIndex points w l c.1 c.2)
    (cellsInOrder w l) (points.map (fun _ => ([] : List (ℕ × ℕ)))) hB
  constructor
  · unfold pointRegionsOf
    rw [h1, List.length_map]
  · intro i
    have h3 := h2 i
    have hinit : (points.map (fun _ => ([] : List (ℕ × ℕ)))).getD i [] = [] := by
      by_cases hi : i < points.length
      · rw [List.getD_eq_getElem _ _ (by simpa using hi)]
        simp
      · rw [List.getD_eq_default]
        rw [List.length_map]
        omega
    unfold pointRegionsOf
    rw [h3, hinit, List.nil_append]

/-- C1 (amended).  For a non-empty list of pairwise-distinct seed points
*lying inside the grid*, after `_init_regions` every cell's recorded region
index is the least seed index attaining the minimal squared Euclidean
distance, and `_point_regions` is the exact inverse of the region map: a
cell belongs to list `k` iff it is a grid cell whose recorded closest index
is `k`, and each list is duplicate-free (so every cell appears in exactly
one list).  In-grid seeds are required: the scan starts from the sentinel
`width**2 + length**2` with index 0, so a far-away seed pair can make the
recorded index wrong (see the counterexample). -/
theorem initRegions_partition_spec (w l : ℕ) (points : List (ℤ × ℤ))
    (hne : points ≠ []) (hnd : points.Nodup)
    (hin : ∀ p ∈ points, 0 ≤ p.1 ∧ p.1 < (w : ℤ) ∧ 0 ≤ p.2 ∧ p.2 < (l : ℤ))
    (x y : ℕ) (hx : x < w) (hy : y < l) :
    (((VoronoiTerrain.create w l points).region_map.getD y []).getD x 0
        = closestPntIndex points w l x y) ∧
    closestPntIndex points w l x y < points.length ∧
    (∀ k, k < points.length →
       distSq (points.getD (closestPntIndex points w l x y) (0, 0)) x y
         ≤ distSq (points.getD k (0, 0)) x y ∧
       (distSq (points.getD k (0, 0)) x y
            = distSq (points.getD (closestPntIndex points w l x y) (0, 0)) x y →
        closestPntIndex points w l x y ≤ k)) ∧
    (∀ k : ℕ, ∀ c : ℕ × ℕ,
       (c ∈ (VoronoiTerrain.create w l points).point_regions.getD k []
          ↔ c.1 < w ∧ c.2 < l ∧ closestPntIndex points w l c.1 c.2 = k)) ∧
    (∀ k : ℕ, ((VoronoiTerrain.create w l points).point_regions.getD k []).Nodup) := by
  have hreg : (VoronoiTerrain.create w l points).region_map = regionMapOf points w l := rfl
  have hpr : (VoronoiTerrain.create w l points).point_regions = pointRegionsOf points w l := rfl
  have hlt : ∀ c ∈ cellsInOrder w l, closestPntIndex points w l c.1 c.2 < points.length := by
    intro c hcm
    obtain ⟨hc1, hc2⟩ := (mem_cellsInOrder w l c).mp hcm
    exact (closestPntIndex_spec points w l c.1 c.2 hne hnd hin hc1 hc2).1
  obtain ⟨hlen, hget⟩ := pointRegionsOf_spec points w l hlt
  obtain ⟨s1, s2, s3⟩ := closestPntIndex_spec points w l x y hne hnd hin hx hy
  refine ⟨?_, s1, fun k hk => ⟨s2 k hk, s3 k hk⟩, ?_, ?_⟩
  · rw [hreg]
    exact regionMapOf_entry points w l x y hx hy
  · intro k c
    rw [hpr, hget k, List.mem_filter, mem_cellsInOrder]
    simp only [decide_eq_true_eq]
    tauto
  · intro k
    rw [hpr, hget k]
    exact (cellsInOrder_nodup w l).filter _

/-- Counterexample to C1 as stated (arbitrary seed lists): on a 1×1 grid
with the distinct out-of-grid seeds `(5,0)` and `(2,0)`, every squared
distance reaches the sentinel `width**2 + length**2 = 2`, so the scan never
updates and records index 0 for cell `(0,0)` — although seed 1 at `(2,0)` is
strictly closer (4 < 25). -/
theorem initRegions_sentinel_counterexample :
    ((VoronoiTerrain.create 1 1 [(5, 0), (2, 0)]).region_map.getD 0 []).getD 0 0 = 0 ∧
    distSq ((2 : ℤ), (0 : ℤ)) 0 0 < distSq ((5 : ℤ), (0 : ℤ)) 0 0 :=
  ⟨rfl, by decide⟩

/-- Witness for the amended C1 theorem on a concrete 2×2 partition. -/
theorem initRegions_partition_witness :
    ((VoronoiTerrain.create 2 2 [(0, 0), (1, 1)]).region_map.getD 1 []).getD 0 0
      = closestPntIndex [(0, 0), (1, 1)] 2 2 0 1 :=
  (initRegions_partition_spec 2 2 [(0, 0), (1, 1)] (by decide) (by decide)
    (by decide) 0 1 (by decide) (by decide)).1

/-! ## C4: one thermal-erosion step -/

/-- The in-bounds von Neumann neighbours whose height difference (against the
heights at scan time) exceeds the talus — the set over which the first loop
of `thermal_erode` accumulates. -/
def qualifyingNbrs (t : Terrain) (talus : ℚ) (x y : ℤ) : List (ℤ × ℤ) :=
  (getVonneumannNeighbours t x y).filter
    (fun n => decide (getItem t x y - getItem t n.1 n.2 > talus))

/-- The per-cell erosion step as the amended claim describes it:
`diff_total` is the *sum* and `diff_max` the *maximum* of the qualifying
pre-transfer differences over the in-bounds (unwrapped) von Neumann
neighbours; the transfer loop then re-tests and re-computes each difference
against the mutated heights, moving
`(diff_max - talus) * (difference / diff_total)` through the rounding,
bounds-checked `__setitem__`. -/
def cellStepSpec (t : Terrain) (talus : ℚ) (x y : ℤ) : Except Err Terrain :=
  let diff_total :=
    ((qualifyingNbrs t talus x y).map (fun n => getItem t x y - getItem t n.1 n.2)).sum
  let diff_max :=
    ((qualifyingNbrs t talus x y).map (fun n => getItem t x y - getItem t n.1 n.2)).foldl max 0
  (getVonneumannNeighbours t x y).foldlM
    (fun cur n =>
      let difference := getItem cur x y - getItem cur n.1 n.2
      if difference > talus then
        let transferred := (diff_max - talus) * (difference / diff_total)
        (setItem cur x y (getItem cur x y - transferred)).bind
          (fun cur1 => setItem cur1 n.1 n.2 (getItem cur1 n.1 n.2 + transferred))
      else .ok cur)
    t

theorem scan_fold_eq (t : Terrain) (talus : ℚ) (x y : ℤ) :
    ∀ (ns : List (ℤ × ℤ)) (acc : ℚ × ℚ),
      ns.foldl
          (fun (acc : ℚ × ℚ) n =>
            let difference := getItem t x y - getItem t n.1 n.2
            if difference > talus then
              (acc.1 + difference, if difference > acc.2 then difference else acc.2)
            else acc) acc
        = (acc.1 + ((ns.filter (fun n => decide (getItem t x y - getItem t n.1 n.2 > talus))).map
              (fun n => getItem t x y - getItem t n.1 n.2)).sum,
           ((ns.filter (fun n => decide (getItem t x y - getItem t n.1 n.2 > talus))).map
              (fun n => getItem t x y - getItem t n.1 n.2)).foldl max acc.2) := by
  intro ns
  induction ns with
  | nil => intro acc; simp
  | cons n ns ih =>
    intro acc
    rw [List.foldl_cons]
    by_cases hqc : getItem t x y - getItem t n.1 n.2 > talus
    · rw [List.filter_cons_of_pos (by simpa using hqc)]
      dsimp only
      rw [if_pos hqc, ih]
      rw [List.map_cons, List.sum_cons, List.foldl_cons]
      have hmax : (if getItem t x y - getItem t n.1 n.2 > acc.2
            then getItem t x y - getItem t n.1 n.2 else acc.2)
          = max acc.2 (getItem t x y - getItem t n.1 n.2) := by
        rcases le_or_lt (getItem t x y - getItem t n.1 n.2) acc.2 with hle | hlt
        · rw [if_neg (by exact not_lt.mpr hle), max_eq_left hle]
        · rw [if_pos hlt, max_eq_right (le_of_lt hlt)]
      rw [hmax]
      congr 1
      ring
    · rw [List.filter_cons_of_neg (by simpa using hqc)]
      dsimp only
      rw [if_neg hqc]
      exact ih acc

/-- C4 (amended).  The per-cell erosion step of `thermal_erode` coincides
with the sum/max description over the *in-bounds, unwrapped* von Neumann
neighbourhood with transfer differences recomputed against the mutated
heights (`cellStepSpec`). -/
theorem cellStep_eq_spec (t : Terrain) (talus : ℚ) (x y : ℤ) :
    cellStep t talus x y = cellStepSpec t talus x y := by
  unfold cellStep cellStepSpec qualifyingNbrs
  simp only [scan_fold_eq, zero_add]

/-- The four toroidally wrapped von Neumann neighbours.  Modelled from the
spec (claim C4 and spec §4.6 say erosion uses the "4 toroidal von-Neumann
neighbors"); the code's `get_vonneumann_neighbours` instead *drops*
out-of-bounds candidates. -/
def torVonNeumann (t : Terrain) (x y : ℤ) : List (ℤ × ℤ) :=
  [(x, y+1), (x-1, y), (x+1, y), (x, y-1)].map
    (fun n => ((pyMod n.1 t.width : ℤ), (pyMod n.2 t.length : ℤ)))

/-- The toroidal neighbours qualifying per the claim (pre-transfer heights). -/
def torQualifying (t : Terrain) (talus : ℚ) (x y : ℤ) : List (ℤ × ℤ) :=
  (torVonNeumann t x y).filter
    (fun n => decide (getItem t x y - getItem t n.1 n.2 > talus))

/-- The qualifying differences per the claim (pre-transfer heights). -/
def torDiffs (t : Terrain) (talus : ℚ) (x y : ℤ) : List ℚ :=
  (torQualifying t talus x y).map (fun n => getItem t x y - getItem t n.1 n.2)

/-- Claim C4 as stated, localised to one cell: every toroidally wrapped von
Neumann neighbour whose pre-transfer difference exceeds the talus receives
exactly `(diff_max - talus) * (diff / diff_total)` computed from the
pre-transfer differences. -/
def claimTransferProp (t : Terrain) (talus : ℚ) (x y : ℤ) : Prop :=
  ∀ n ∈ torQualifying t talus x y,
    (cellStep t talus x y).map (fun t2 => getItem t2 n.1 n.2)
      = .ok (getItem t n.1 n.2
          + ((torDiffs t talus x y).foldl max 0 - talus)
            * ((getItem t x y - getItem t n.1 n.2) / (torDiffs t talus x y).sum))

/-- A 3×3 grid with a single peak of height 1 at cell `(0, 0)`. -/
def gpeak3 : Terrain := ⟨3, 3, fun r c => if r = 0 ∧ c = 0 then 1 else 0⟩

theorem cellStep_gpeak3_at20 :
    (cellStep gpeak3 (1/10) 0 0).map (fun t2 => getItem t2 2 0) = .ok 0 := by
  norm_num [cellStep, getVonneumannNeighbours, gpeak3, getItem, setItem, updMap, pyMod,
    pyRound3, roundHalfAway, List.filter, List.foldl_cons, List.foldl_nil,
    List.foldlM_cons, List.foldlM_nil, Except.map, Except.bind, Bind.bind, Pure.pure,
    Except.pure]
  decide

theorem cellStep_gpeak3_at10 :
    (cellStep gpeak3 (1/10) 0 0).map (fun t2 => getItem t2 1 0) = .ok (31/125) := by
  norm_num [cellStep, getVonneumannNeighbours, gpeak3, getItem, setItem, updMap, pyMod,
    pyRound3, roundHalfAway, List.filter, List.foldl_cons, List.foldl_nil,
    List.foldlM_cons, List.foldlM_nil, Except.map, Except.bind, Bind.bind, Pure.pure,
    Except.pure]

theorem torQualifying_gpeak3 :
    torQualifying gpeak3 (1/10) 0 0
      = [((0 : ℤ), (1 : ℤ)), (2, 0), (1, 0), (0, 2)] := by
  norm_num [torQualifying, torVonNeumann, gpeak3, getItem, pyMod, List.filter]

theorem torDiffs_gpeak3 : torDiffs gpeak3 (1/10) 0 0 = [1, 1, 1, 1] := by
  rw [torDiffs, torQualifying_gpeak3]
  norm_num [getItem, gpeak3, pyMod]

/-- Counterexample to C4 as stated: on the 3×3 peak grid with talus `1/10`,
processing cell `(0, 0)` leaves the wrapped neighbour `(2, 0)` untouched
(height 0) although per the claim it qualifies and should receive
`(1 - 1/10) * (1/4) = 9/40`; moreover the in-bounds neighbour `(1, 0)` ends
at `0.248`, not the `0.45` that pre-transfer differences would give —
the transfer loop recomputes differences after earlier transfers and rounds
each write to 3 decimals. -/
theorem thermal_toroidal_counterexample :
    ¬ claimTransferProp gpeak3 (1/10) 0 0 ∧
    (cellStep gpeak3 (1/10) 0 0).map (fun t2 => getItem t2 1 0) = .ok (31/125) ∧
    (31 : ℚ)/125 ≠ 0 + (1 - 1/10) * ((1 - 0) / (1 + 1)) := by
  refine ⟨?_, cellStep_gpeak3_at10, by norm_num⟩
  intro h
  have hmem : ((2 : ℤ), (0 : ℤ)) ∈ torQualifying gpeak3 (1/10) 0 0 := by
    rw [torQualifying_gpeak3]
    simp
  have h2 := h (2, 0) hmem
  rw [cellStep_gpeak3_at20, torDiffs_gpeak3] at h2
  norm_num [getItem, gpeak3, pyMod] at h2

/-! ## C6: plain-format save/load round trip -/

/-- Python `s.split(sep)` for a one-character separator, over strings
modelled as character lists (`"".split(sep) == [""]`, a trailing separator
yields a trailing empty piece). -/
def splitOnChar (sep : Char) : List Char → List (List Char)
  | [] => [[]]
  | c :: cs =>
    match splitOnChar sep cs with
    | [] => [[]]
    | l :: ls => if c = sep then [] :: l :: ls else (c :: l) :: ls

/-- The decimal digit character for `n < 10`. -/
def digitChar (n : ℕ) : Char := Char.ofNat (48 + n)

/-- Decimal rendering of a natural number (fuelled; `fuel > n` suffices). -/
def natChars : ℕ → ℕ → List Char
  | 0, _ => []
  | fuel + 1, n => if n < 10 then [digitChar n] else natChars fuel (n / 10) ++ [digitChar (n % 10)]

/-- Python `str(n)` for a natural number. -/
def natToChars (n : ℕ) : List Char := natChars (n + 1) n

def parseDigit (c : Char) : Option ℕ :=
  if '0' ≤ c ∧ c ≤ '9' then some (c.toNat - 48) else none

/-- Python `int(s)` on the plain digit strings this format produces
(anything else raises `ValueError`, modelled as `none`). -/
def parseNat (cs : List Char) : Option ℕ :=
  if cs = [] then none
  else cs.foldl (fun acc c => acc.bind (fun a => (parseDigit c).map (fun d => a * 10 + d))) (some 0)

/-- Python `float(s)` on the non-negative decimal strings this format
produces. -/
def parseFloat (cs : List Char) : Option ℚ :=
  match splitOnChar '.' cs with
  | [a] => (parseNat a).map (fun n => (n : ℚ))
  | [a, b] =>
    (parseNat a).bind (fun ip => (parseNat b).map (fun fp => (ip : ℚ) + (fp : ℚ) / (10 ^ b.length)))
  | _ => none

/-- Python `str(round(x, 4))` for the heights written by `save_terrain`: the
rounded value printed as a decimal with trailing zeros trimmed and at least
one fractional digit (so `0.0`, `0.25`, `0.1`). -/
def fracTrim (fp : ℕ) : List Char :=
  if fp % 10 ≠ 0 then
    [digitChar (fp / 1000), digitChar (fp / 100 % 10), digitChar (fp / 10 % 10), digitChar (fp % 10)]
  else if fp / 10 % 10 ≠ 0 then
    [digitChar (fp / 1000), digitChar (fp / 100 % 10), digitChar (fp / 10 % 10)]
  else if fp / 100 % 10 ≠ 0 then
    [digitChar (fp / 1000), digitChar (fp / 100 % 10)]
  else
    [digitChar (fp / 1000)]

def pyStrRound4 (q : ℚ) : List Char :=
  (if roundHalfAway (q * 10000) < 0 then ['-'] else []) ++
  natToChars ((roundHalfAway (q * 10000)).natAbs / 10000) ++ ['.'] ++
  fracTrim ((roundHalfAway (q * 10000)).natAbs % 10000)

/-- Join pieces with a separator (Python `sep.join(...)`). -/
def joinSep (sep : List Char) : List (List Char) → List Char
  | [] => []
  | [a] => a
  | a :: rest => a ++ sep ++ joinSep sep rest

/-- `Terrain.save_terrain`, content level: the sequence of chunks written to
the `.terr` file — the `width length` header line, then one line per height
row, each terminated by a newline.  (The surrounding filesystem check
`os.path.isdir(path)` and the file naming are not modelled.) -/
def saveChunks (t : Terrain) : List (List Char) :=
  (natToChars t.width ++ [' '] ++ natToChars t.length ++ ['\n']) ::
  (List.range t.length).map (fun y =>
    joinSep [' '] ((List.range t.width).map (fun x => pyStrRound4 (t.height_map y x))) ++ ['\n'])

def saveContent (t : Terrain) : List Char := (saveChunks t).flatten

/-- `Terrain.load_terrain`, content level: the parse of the file contents
that runs after the path check.  (In the code that check is
`os.path.isdir(path + fname + ".terr")`, which is `False` for every regular
file, so the real method raises `IOError` before ever reading the contents;
this definition models the parse a caller would reach if that check is
fixed.)  The line count is validated against `length + 1`, each parsed row
against `width`, and heights are stored through the bounds-checked
`__setitem__`. -/
def loadTerrainContent (content : List Char) : Except Err Terrain :=
  let lines := splitOnChar '\n' content
  match lines.get? 0 with
  | none => .error .indexError
  | some line0 =>
    match (splitOnChar ' ' line0).get? 0, (splitOnChar ' ' line0).get? 1 with
    | some ws, some ls =>
      match parseNat ws, parseNat ls with
      | some width, some length =>
        if lines.length ≠ length + 1 then .error .invalidFileFormat
        else
          match (List.range length).mapM
              (fun y => (splitOnChar ' ' (lines.getD (1 + y) [])).mapM parseFloat) with
          | none => .error .valueError
          | some heights =>
            if ¬ heights.all (fun line => line.length = width) then .error .invalidFileFormat
            else
              (List.range length).foldlM
                (fun acc (y : ℕ) =>
                  (List.range width).foldlM
                    (fun a2 (x : ℕ) => setItem a2 (x : ℤ) (y : ℤ) ((heights.getD y []).getD x 0))
                    acc)
                (Terrain.create width length)
      | _, _ => .error .valueError
    | _, _ => .error .indexError

theorem pyStrRound4_zero : pyStrRound4 0 = ['0', '.', '0'] := by
  have h : roundHalfAway ((0 : ℚ) * 10000) = 0 := by
    unfold roundHalfAway
    norm_num
  unfold pyStrRound4
  rw [h]
  decide

/-- C6 (code bug).  Saving the 2×2 all-zero grid and reloading the saved
contents fails: every written line is newline-terminated, so
`read().split("\n")` produces a trailing empty string and the line count
seen by the loader is `length + 2`, which the check `== length + 1`
rejects with `InvalidFileFormatError`.  (Independently, the method's first
line checks `os.path.isdir` on the *file* path, which is false for any
regular file, so the unmodified method raises `IOError` even earlier.) -/
theorem load_save_roundtrip_fails :
    loadTerrainContent (saveContent (Terrain.create 2 2)) = .error .invalidFileFormat := by
  have hsave : saveContent (Terrain.create 2 2)
      = ['2', ' ', '2', '\n',
         '0', '.', '0', ' ', '0', '.', '0', '\n',
         '0', '.', '0', ' ', '0', '.', '0', '\n'] := by
    unfold saveContent saveChunks Terrain.create
    simp only [List.range_succ, List.range_zero, List.nil_append, List.map_append,
      List.map_cons, List.map_nil, pyStrRound4_zero]
    rfl
  rw [hsave]
  rfl

/-! ## C5: feature-point distance factors -/

/-- The `while` condition of `add_feature_point_factors`:
`self._points[self.get_closest_point(int(temp_x), int(temp_y))] == (region_x, region_y)`.
It is only evaluated at in-grid (hence non-negative) positions, where
Python's `int()` truncation coincides with the floor used by `rayMarch`;
the out-of-range lookups (`none` branches), which would raise in Python, are
unreachable there. -/
def whileCondHolds (v : VoronoiTerrain) (region_x region_y : ℤ) (ix iy : ℤ) : Bool :=
  match getClosestPoint v ix iy with
  | some idx =>
    match v.points.get? idx with
    | some p => decide (p = (region_x, region_y))
    | none => false
  | none => false

/-- The ray-marching loop of `add_feature_point_factors`: starting at the
member cell, keep stepping by the unit direction vector while the current
position's region belongs to the chosen seed, breaking as soon as a step
leaves the grid.  The loop is fuelled; in the source it terminates because
each step advances one unit along a fixed direction, so any
`fuel ≥ 2 * (width + length)` is enough. -/
noncomputable def rayMarch (v : VoronoiTerrain) (region_x region_y : ℤ) (x_diff y_diff : ℝ) :
    ℕ → ℝ × ℝ → ℝ × ℝ
  | 0, temp => temp
  | fuel + 1, temp =>
    if whileCondHolds v region_x region_y ⌊temp.1⌋ ⌊temp.2⌋ then
      (if 0 ≤ temp.1 + x_diff ∧ temp.1 + x_diff < (v.width : ℝ) ∧
          0 ≤ temp.2 + y_diff ∧ temp.2 + y_diff < (v.length : ℝ) then
        rayMarch v region_x region_y x_diff y_diff fuel (temp.1 + x_diff, temp.2 + y_diff)
      else (temp.1 + x_diff, temp.2 + y_diff))
    else temp

/-- `feat_to_pnt_len`: the Euclidean distance from the feature point to the
member cell, used to normalise the step direction. -/
noncomputable def featLen (x y fx fy : ℕ) : ℝ :=
  Real.sqrt (((x : ℝ) - fx)^2 + ((y : ℝ) - fy)^2)

/-- The position of `temp` when the marching loop exits, starting from the
member cell and stepping by `(x_diff, y_diff)`. -/
noncomputable def marchExit (v : VoronoiTerrain) (region_x region_y : ℤ)
    (x y fx fy : ℕ) (fuel : ℕ) : ℝ × ℝ :=
  rayMarch v region_x region_y
    (((x : ℝ) - fx) / featLen x y fx fy) (((y : ℝ) - fy) / featLen x y fx fy)
    fuel ((x : ℝ), (y : ℝ))

/-- The position one unit step beyond the marched exit position — the point
whose squared distance from the feature point the code uses as
`dist_to_edge_squared` (`temp_x + x_diff`, `temp_y + y_diff`). -/
noncomputable def edgeReachPoint (v : VoronoiTerrain) (region_x region_y : ℤ)
    (x y fx fy : ℕ) (fuel : ℕ) : ℝ × ℝ :=
  ((marchExit v region_x region_y x y fx fy fuel).1 + ((x : ℝ) - fx) / featLen x y fx fy,
   (marchExit v region_x region_y x y fx fy fuel).2 + ((y : ℝ) - fy) / featLen x y fx fy)

/-- The `dist_factor` computed by `add_feature_point_factors` for one member
cell `(x, y)` and one feature point `(fx, fy)`:
`sqrt(dist_to_point_squared / dist_to_edge_squared)`. -/
noncomputable def distFactor (v : VoronoiTerrain) (region_x region_y : ℤ)
    (x y fx fy : ℕ) (fuel : ℕ) : ℝ :=
  Real.sqrt
    ((((x : ℝ) - fx)^2 + ((y : ℝ) - fy)^2) /
     (((edgeReachPoint v region_x region_y x y fx fy fuel).1 - fx)^2 +
      ((edgeReachPoint v region_x region_y x y fx fy fuel).2 - fy)^2))

/-- The per-pair height contribution of `add_feature_point_factors`: zero
when the cell coincides with the feature point (the pair is skipped by
`if x != feat_x or y != feat_y`), otherwise `dist_factor * coeff`. -/
noncomputable def pairContribution (v : VoronoiTerrain) (region_x region_y : ℤ)
    (x y fx fy : ℕ) (fuel : ℕ) (c : ℝ) : ℝ :=
  if x = fx ∧ y = fy then 0 else distFactor v region_x region_y x y fx fy fuel * c

/-- Euclidean distance on the real plane. -/
noncomputable def distR (p q : ℝ × ℝ) : ℝ := Real.sqrt ((p.1 - q.1)^2 + (p.2 - q.2)^2)

/-- Modelled from the spec (claim C5): the claimed contribution
`c · sqrt(d / d_edge)`, where `d` is the distance from the cell to the
feature point and `d_edge` the distance from the feature point to the
boundary crossing itself (the marched exit position, with no extra step). -/
noncomputable def claimContribution (v : VoronoiTerrain) (region_x region_y : ℤ)
    (x y fx fy : ℕ) (fuel : ℕ) (c : ℝ) : ℝ :=
  if x = fx ∧ y = fy then 0
  else c * Real.sqrt
    (distR ((x : ℝ), (y : ℝ)) ((fx : ℝ), (fy : ℝ)) /
     distR ((fx : ℝ), (fy : ℝ)) (marchExit v region_x region_y x y fx fy fuel))

/-- C5 (amended).  The contribution a pair (feature point, coefficient)
adds to a member cell is `c · (d / d_edge)` (a plain ratio, not the square
root of the ratio: the code takes `sqrt` of a ratio of *squared* distances),
where `d_edge` is measured to one unit step *beyond* the position at which
the march leaves the region or the grid; the pair contributes zero when the
cell is the feature point itself. -/
theorem pairContribution_eq (v : VoronoiTerrain) (region_x region_y : ℤ)
    (x y fx fy : ℕ) (fuel : ℕ) (c : ℝ) :
    pairContribution v region_x region_y x y fx fy fuel c
      = if x = fx ∧ y = fy then 0
        else c * (distR ((x : ℝ), (y : ℝ)) ((fx : ℝ), (fy : ℝ)) /
              distR ((fx : ℝ), (fy : ℝ)) (edgeReachPoint v region_x region_y x y fx fy fuel)) := by
  by_cases h : x = fx ∧ y = fy
  · rw [pairContribution, if_pos h, if_pos h]
  · rw [pairContribution, if_neg h, if_neg h]
    unfold distFactor distR
    rw [Real.sqrt_div (by positivity)]
    have h1 : ((fx : ℝ) - (edgeReachPoint v region_x region_y x y fx fy fuel).1)^2
        = ((edgeReachPoint v region_x region_y x y fx fy fuel).1 - fx)^2 := by ring
    have h2 : ((fy : ℝ) - (edgeReachPoint v region_x region_y x y fx fy fuel).2)^2
        = ((edgeReachPoint v region_x region_y x y fx fy fuel).2 - fy)^2 := by ring
    rw [h1, h2]
    ring

/-- Concrete 3×1 partition for the C5 counterexample: seeds `(0,0)` and
`(2,0)`, regions `[0, 0, 1]` along the single row. -/
def v5 : VoronoiTerrain := VoronoiTerrain.create 3 1 [(0, 0), (2, 0)]

theorem featLen_v5 : featLen 1 0 0 0 = 1 := by
  have h : (((1 : ℕ) : ℝ) - ((0 : ℕ) : ℝ))^2 + (((0 : ℕ) : ℝ) - ((0 : ℕ) : ℝ))^2 = 1 := by
    norm_num
  rw [featLen, h, Real.sqrt_one]

/-- For cell `(1,0)` and feature point `(0,0)` the march exits at `(2,0)`,
the first stepped position outside seed `(0,0)`'s region. -/
theorem march_v5 : marchExit v5 0 0 1 0 0 0 5 = (2, 0) := by
  unfold marchExit
  rw [featLen_v5]
  norm_num
  rw [show (5 : ℕ) = 4 + 1 from rfl, rayMarch]
  dsimp only
  rw [Int.floor_one, Int.floor_zero]
  rw [show whileCondHolds v5 0 0 1 0 = true from by decide]
  rw [if_pos rfl]
  rw [if_pos (by norm_num [show v5.width = 3 from rfl, show v5.length = 1 from rfl])]
  norm_num
  rw [show (4 : ℕ) = 3 + 1 from rfl, rayMarch]
  dsimp only
  rw [show (⌊(2 : ℝ)⌋ : ℤ) = 2 by norm_num, Int.floor_zero]
  rw [show whileCondHolds v5 0 0 2 0 = false from by decide]
  simp

theorem edgeReach_v5 : edgeReachPoint v5 0 0 1 0 0 0 5 = (3, 0) := by
  unfold edgeReachPoint
  rw [march_v5, featLen_v5]
  norm_num

theorem distFactor_v5 : distFactor v5 0 0 1 0 0 0 5 = 1/3 := by
  unfold distFactor
  rw [edgeReach_v5]
  norm_num
  rw [show (9 : ℝ) = 3^2 by norm_num, Real.sqrt_sq (by norm_num : (0:ℝ) ≤ 3)]
  norm_num

theorem claimContribution_v5 : claimContribution v5 0 0 1 0 0 0 5 1 = Real.sqrt (1/2) := by
  unfold claimContribution
  rw [if_neg (by simp), march_v5]
  unfold distR
  norm_num
  rw [show (4 : ℝ) = 2^2 by norm_num, Real.sqrt_sq (by norm_num : (0:ℝ) ≤ 2)]

/-- Counterexample to C5 as stated: on the 3×1 partition with seeds `(0,0)`
and `(2,0)`, feature point `(0,0)` and cell `(1,0)` (distance `d = 1`), the
march leaves the region at `(2,0)` (so the claimed `d_edge = 2` and claimed
contribution `1 · sqrt(1/2)`), but the code computes `sqrt(d² / d_edge²)`
with `d_edge` taken one step further (distance 3), i.e. contribution `1/3`:
the code's value is a plain distance ratio to the one-step-past point, not
`sqrt(d / d_edge)` to the crossing. -/
theorem featureFactor_counterexample :
    pairContribution v5 0 0 1 0 0 0 5 1 = 1/3 ∧
    claimContribution v5 0 0 1 0 0 0 5 1 = Real.sqrt (1/2) ∧
    pairContribution v5 0 0 1 0 0 0 5 1 ≠ claimContribution v5 0 0 1 0 0 0 5 1 := by
  have hp : pairContribution v5 0 0 1 0 0 0 5 1 = 1/3 := by
    unfold pairContribution
    rw [if_neg (by simp), distFactor_v5]
    norm_num
  refine ⟨hp, claimContribution_v5, ?_⟩
  rw [hp, claimContribution_v5]
  intro h
  have h2 : ((1/3 : ℝ))^2 = (1/2 : ℝ) := by
    rw [h]
    exact Real.sq_sqrt (by norm_num)
  norm_num at h2

end RandTerrain
